import Mathlib

/-!
Verification of the keyword-mapping core of `src/keyword.py`.

The program wires a Streamlit UI around one algorithmic core:

* it builds a keyword -> product-string dictionary (`product_map`, lines
  101-106) and registers every keyword with a third-party `flashtext`
  `KeywordProcessor` (line 98, constructed with its defaults);
* per description row it joins the set of extracted keywords with ", "
  (`extract_keywords`, lines 111-115) and resolves products by splitting that
  joined string back on ", " and looking each fragment up (lines 117-119);
* supporting pieces: file loading with error capture (lines 26-37), column
  concatenation (lines 39-40) and manual comma-separated keyword entry
  (lines 87-89).

Strings are modelled as Lean `String` / `List Char`; pandas cells as an
explicit `Cell` type with a null constructor; the Python dict as an
association list read through last-write-wins lookup; Python `set(...)`
iteration order as an arbitrary `so : List String → List String` that is
duplicate-free and membership-preserving (`Admissible`).

The third-party flashtext matcher is not part of this repository; it is
modelled below (`flashtextExtract`) from the library's semantics: the
processor is created as `KeywordProcessor()` whose default is
`case_sensitive=False`, so keywords and text are lowercased before matching,
and flashtext reports a keyword only where its occurrence is delimited on
both sides by the text edge or a character outside the word alphabet
`[A-Za-z0-9_]` (flashtext's `non_word_boundaries`).  The model is an
over-approximation: it reports every keyword that has such a delimited
occurrence, whereas the library's greedy left-to-right, longest-match,
non-overlapping scan may report strictly fewer — with keywords "Apple" and
"Big Apple" on the text "I love Big Apple" flashtext reports only
"Big Apple", suppressing the overlapped "Apple".  Accordingly no theorem
below asserts completeness of extraction ("every occurring keyword is
reported"); the theorems use only properties preserved by the
over-approximation: soundness of each reported keyword (a reported keyword
does occur, delimited, case-insensitively), dependence on the text only
through its lowered form, empty extraction when no keyword occurs at all,
and determinism of extraction per input.
-/

/-- ASCII lower-casing of one character, as Python's `str.lower` acts on the
ASCII range (all inputs considered here are ASCII). -/
def lowerC (c : Char) : Char :=
  if 65 ≤ c.toNat ∧ c.toNat ≤ 90 then Char.ofNat (c.toNat + 32) else c

/-- Lower-casing of a character list. -/
def lowerS (l : List Char) : List Char := l.map lowerC

/-- flashtext's word alphabet (`non_word_boundaries`): ASCII letters, digits
and underscore.  A keyword occurrence only counts when the neighbouring
characters are outside this alphabet. -/
def wordChar (c : Char) : Bool := c.isAlphanum || c == '_'

/-- Is position `i` of `t` preceded by a word boundary (text start or a
non-word character)? -/
def bdBefore (t : List Char) (i : Nat) : Bool :=
  match i with
  | 0 => true
  | j + 1 =>
    match t[j]? with
    | some c => !wordChar c
    | none => true

/-- Is position `j` of `t` a word boundary on the right (text end or a
non-word character)? -/
def bdAfter (t : List Char) (j : Nat) : Bool :=
  match t[j]? with
  | some c => !wordChar c
  | none => true

/-- Executable matcher: does `k` occur in `t` at some position that is
delimited by word boundaries on both sides?  This is the occurrence
criterion of flashtext's scan (both `k` and `t` are already lowercased by
the caller, as flashtext lowercases both with its default
`case_sensitive=False`). -/
def ftMatch (k t : List Char) : Bool :=
  (List.range (t.length + 1)).any fun i =>
    decide (i + k.length ≤ t.length) && ((t.drop i).take k.length == k)
      && bdBefore t i && bdAfter t (i + k.length)

/-- Declarative occurrence criterion: `t` decomposes as `pre ++ k ++ post`
where `pre` ends and `post` begins with a non-word character (or is empty).
`ftMatch` is proved equivalent to this below. -/
def DelimOccurs (k t : List Char) : Prop :=
  ∃ pre post, t = pre ++ k ++ post ∧
    (∀ c, pre.getLast? = some c → wordChar c = false) ∧
    (∀ c, post.head? = some c → wordChar c = false)

/-- The trie keys of the keyword processor after registering the keywords
`K` in order: the distinct lowered forms of the nonempty keywords
(flashtext's `add_keyword` skips empty keywords and, with
`case_sensitive=False`, keys the trie by the lowered keyword). -/
def trieKeys (K : List String) : List (List Char) :=
  ((K.filter fun k => decide (k ≠ "")).map fun k => lowerS k.toList).dedup

/-- The clean name flashtext reports for trie key `w`: `add_keyword` stores
the original (unlowered) keyword at the trie node, a later registration of a
keyword with the same lowered form overwriting an earlier one. -/
def cleanName (K : List String) (w : List Char) : Option String :=
  (K.filter fun k => decide (k ≠ "" ∧ lowerS k.toList = w)).getLast?

/-- Model of `keyword_processor.extract_keywords(description)` (line 112)
for a processor built by `KeywordProcessor()` (line 98) and
`add_keyword` over `K` (line 105): the clean names of the trie keys having a
boundary-delimited occurrence in the lowered text.  The source immediately
wraps this in `list(set(...))`, so only membership matters downstream. -/
def flashtextExtract (K : List String) (t : String) : List String :=
  (trieKeys K).filterMap fun w =>
    if ftMatch w (lowerS t.toList) then cleanName K w else none

/-- Prepend a character to the first piece of a split (helper for the
splitters below). -/
def consH (c : Char) : List (List Char) → List (List Char)
  | [] => [[c]]
  | h :: t => (c :: h) :: t

/-- Python's `x.split(", ")` on character lists: leftmost, non-overlapping
splitting on the two-character separator, keeping empty pieces. -/
def splitSepL : List Char → List (List Char)
  | [] => [[]]
  | ',' :: ' ' :: rest => [] :: splitSepL rest
  | c :: rest => consH c (splitSepL rest)

/-- Python's `", ".join(pieces)` on character lists. -/
def joinSepL (l : List (List Char)) : List Char :=
  match l with
  | [] => []
  | x :: xs => x ++ if xs = [] then [] else ',' :: ' ' :: joinSepL xs

/-- `x.split(", ")` at the `String` level (line 118). -/
def splitCommaSpace (s : String) : List String :=
  (splitSepL s.toList).map fun l => ⟨l⟩

/-- `", ".join(l)` at the `String` level (lines 106, 113, 118). -/
def joinCommaSpace (l : List String) : String :=
  ⟨joinSepL (l.map String.toList)⟩

/-- A Python `set(...)` materialised as a list: any duplicate-free,
membership-preserving reordering.  `list(set(x))` and the `set`
comprehension of lines 112 and 118 are modelled by an arbitrary `so`
satisfying this predicate (Python's set iteration order is unspecified). -/
def Admissible (so : List String → List String) : Prop :=
  ∀ l, (so l).Nodup ∧ ∀ x, x ∈ so l ↔ x ∈ l

/-- Rendering of one row's product list (line 106):
`", ".join(products) if products else "-"`. -/
def renderProducts (ps : List String) : String :=
  if ps = [] then "-" else joinCommaSpace ps

/-- A row of the keyword/product table: each column holds a string or is
null (`pd.notnull` filters the nulls out at lines 102-103). -/
abbrev KRow := String → Option String

/-- The non-null keyword cells of a row, in keyword-column order
(line 102). -/
def rowKeywords (r : KRow) (keyCols : List String) : List String :=
  keyCols.filterMap r

/-- The non-null product cells of a row, in product-column order
(line 103). -/
def rowProducts (r : KRow) (prodCols : List String) : List String :=
  prodCols.filterMap r

/-- The sequence of `product_map[keyword] = ...` assignments executed by the
loop of lines 101-106, in execution order: for each row, each of its
keywords is bound to the row's rendered product string. -/
def registrations (keyCols prodCols : List String) (rows : List KRow) :
    List (String × String) :=
  rows.flatMap fun r =>
    (rowKeywords r keyCols).map fun k =>
      (k, renderProducts (rowProducts r prodCols))

/-- Lookup in the `product_map` dict built from an assignment sequence:
a Python dict write overwrites, so the value of a key is that of its last
assignment. -/
def product_map_lookup (regs : List (String × String)) (k : String) :
    Option String :=
  ((regs.filter fun p => decide (p.1 = k)).getLast?).map Prod.snd

/-- `extract_keywords` of lines 111-113: join `list(set(...))` of the
processor's matches with ", ", or "-" when no keyword matched.  `so` is the
set-iteration order of `list(set(...))`. -/
def extract_keywords (so : List String → List String) (K : List String)
    (description : String) : String :=
  if so (flashtextExtract K description) = [] then "-"
  else joinCommaSpace (so (flashtextExtract K description))

/-- The set built inside line 118:
`set(product_map.get(k, "-") for k in x.split(", ") if k)`. -/
def resolvedProductSet (pm : String → Option String) (x : String) :
    Finset String :=
  (((splitCommaSpace x).filter fun k => decide (k ≠ "")).map
    fun k => (pm k).getD "-").toFinset

/-- The `Mapped_Product` lambda of lines 117-119: "-" for an unmatched row,
otherwise the ", "-join of the resolved product set (iterated in order
`so`). -/
def Mapped_Product (so : List String → List String)
    (pm : String → Option String) (x : String) : String :=
  if x = "-" then "-"
  else joinCommaSpace (so (((splitCommaSpace x).filter
    fun k => decide (k ≠ "")).map fun k => (pm k).getD "-"))

/-- The per-record product set as the mapping run produces it: the dash
marker for an unmatched row, otherwise the set of line 118. -/
def productSet (so : List String → List String) (pm : String → Option String)
    (K : List String) (description : String) : Finset String :=
  if extract_keywords so K description = "-" then {"-"}
  else resolvedProductSet pm (extract_keywords so K description)

/-- The product set as claim C3 describes it: one composite product string
looked up per matched keyword, deduplicated as whole strings. -/
def perKeywordProducts (pm : String → Option String) (M : List String) :
    Finset String :=
  (M.map fun k => (pm k).getD "-").toFinset

/-- A cell of the description table: null (NaN), a string, or a number
(which `astype(str)` stringifies). -/
inductive Cell where
  | null : Cell
  | str : String → Cell
  | num : Int → Cell
deriving DecidableEq

/-- Is the cell null (`dropna` removes exactly these)? -/
def Cell.isNull : Cell → Bool
  | .null => true
  | _ => false

/-- `astype(str)` on one cell. -/
def Cell.astype : Cell → String
  | .null => "nan"
  | .str s => s
  | .num n => toString n

/-- Python's `" ".join(l)`. -/
def joinSpace (l : List String) : String :=
  match l with
  | [] => ""
  | x :: xs => x ++ if xs = [] then "" else " " ++ joinSpace xs

/-- `concatenate_columns` of lines 39-40, per row:
`" ".join(row.dropna().astype(str))`.  (The trailing `.fillna("-")` of line
40 acts on the resulting string column and strings are never NaN, so it does
not alter the per-row result.) -/
def concatenate_columns (r : String → Cell) (cols : List String) : String :=
  joinSpace (((cols.map r).filter fun c => !c.isNull).map Cell.astype)

/-- A loaded table; its contents are irrelevant to the claims below. -/
abbrev Frame := List (String → Cell)

/-- Python's `s.endswith(suffix)`. -/
def pyEndsWith (s suffix : String) : Bool :=
  suffix.toList.isSuffixOf s.toList

/-- `load_data` of lines 26-37: dispatch on the file extension, with the
parser outcome (`pd.read_*` succeeding or raising) passed in explicitly;
returns the loaded frame together with the `st.error` messages shown.  A
raised parse error is caught and reported (`st.error(f"Error reading file:
{e}")`) and the function returns `None`; an unsupported extension falls
through to `return None` with no message. -/
def load_data (fileName : String) (parse : Except String Frame) :
    Option Frame × List String :=
  if pyEndsWith fileName ".csv" || pyEndsWith fileName ".xlsx"
      || pyEndsWith fileName ".json" then
    match parse with
    | .ok d => (some d, [])
    | .error e => (none, ["Error reading file: " ++ e])
  else (none, [])

/-- Lines 60-65 of the description-upload flow: line 62 runs
`st.dataframe(desc_dataset.head(1000), ...)` unconditionally, BEFORE the
`if desc_dataset is not None` guard of line 64.  The Python
`AttributeError` raised when `desc_dataset` is `None` is modelled as the
error branch of an `Except`. -/
def desc_preview (desc : Option Frame) : Except String Frame :=
  match desc with
  | none => .error "AttributeError: NoneType object has no attribute head"
  | some d => .ok (d.take 1000)

/-- One character of whitespace, as Python's `str.strip` removes it (ASCII
range). -/
def pyStrip (s : String) : String :=
  ⟨((s.toList.dropWhile Char.isWhitespace).reverse.dropWhile
    Char.isWhitespace).reverse⟩

/-- Python's `manual_keywords.split(",")`: split on every single comma,
keeping empty pieces. -/
def splitOnComma (l : List Char) : List (List Char) :=
  match l with
  | [] => [[]]
  | ',' :: rest => [] :: splitOnComma rest
  | c :: rest => consH c (splitOnComma rest)

/-- The manual-entry keyword list of line 88:
`[kw.strip() for kw in manual_keywords.split(",") if kw.strip()]`. -/
def manual_tokens (s : String) : List String :=
  (((splitOnComma s.toList).map fun l => pyStrip ⟨l⟩).filter
    fun t => decide (t ≠ ""))

/-- The key table built from manual entry (lines 88-89): one single-column
row per token, no product columns selected. -/
def manualRow (t : String) : KRow :=
  fun col => if col = "Keywords" then some t else none

/-- The `product_map` assignment sequence the mapping loop executes for a
manual entry: key column "Keywords", no product columns. -/
def manualRegs (s : String) : List (String × String) :=
  registrations ["Keywords"] [] ((manual_tokens s).map manualRow)

/-- Unfolding of `splitSepL` on the empty list. -/
theorem splitSepL_nil : splitSepL [] = [[]] := rfl

/-- Unfolding of `splitSepL` when the separator is at the head. -/
theorem splitSepL_sep_cons (rest : List Char) :
    splitSepL (',' :: ' ' :: rest) = [] :: splitSepL rest := rfl

/-- Unfolding of `splitSepL` when the separator is not at the head. -/
theorem splitSepL_cons_of (c : Char) (rest : List Char)
    (h : ¬(c = ',' ∧ rest.head? = some ' ')) :
    splitSepL (c :: rest) = consH c (splitSepL rest) := by
  rw [splitSepL.eq_def]
  split
  · simp_all
  · rename_i heq
    rw [List.cons.injEq] at heq
    exact absurd ⟨heq.1, by rw [heq.2]; rfl⟩ h
  · rename_i c2 rest2 hcond heq
    injection heq with h1 h2
    subst h1
    subst h2
    rfl

/-- Bridge between the no-match side condition of `splitSepL`'s third
equation and the separator-at-head condition. -/
theorem noSepCond {c : Char} {rest : List Char}
    (h : ∀ rest', c = ',' → rest = ' ' :: rest' → False) :
    ¬(c = ',' ∧ rest.head? = some ' ') := by
  rintro ⟨rfl, hh⟩
  cases rest with
  | nil => simp at hh
  | cons r rt =>
    have hr : r = ' ' := by simpa using hh
    exact h rt rfl (by rw [hr])

/-- A split never produces the empty list of pieces. -/
theorem splitSepL_ne_nil (l : List Char) : splitSepL l ≠ [] := by
  induction l using splitSepL.induct with
  | case1 => simp [splitSepL_nil]
  | case2 rest ih => simp [splitSepL_sep_cons]
  | case3 c rest h ih =>
    rw [splitSepL_cons_of c rest (noSepCond h)]
    cases hs : splitSepL rest with
    | nil => exact absurd hs ih
    | cons a tl => simp [consH]

/-- `consH` distributes over a nonempty left append. -/
theorem consH_append (c : Char) (l₁ l₂ : List (List Char)) (h : l₁ ≠ []) :
    consH c (l₁ ++ l₂) = consH c l₁ ++ l₂ := by
  cases l₁ with
  | nil => exact absurd rfl h
  | cons a tl => rfl

/-- Splitting around one explicit separator: pieces of the left part
followed by pieces of the right part.  The separator ", " cannot straddle
the boundary (an occurrence would need a ',' at the left of the boundary
followed by the separator's own ',', or start on the separator's ' '). -/
theorem splitSepL_append_sep (ys xs : List Char) :
    splitSepL (xs ++ ',' :: ' ' :: ys) = splitSepL xs ++ splitSepL ys := by
  induction xs using splitSepL.induct with
  | case1 =>
    rw [List.nil_append, splitSepL_sep_cons, splitSepL_nil]
    rfl
  | case2 rest ih =>
    rw [List.cons_append, List.cons_append, splitSepL_sep_cons,
      splitSepL_sep_cons, ih]
    rfl
  | case3 c rest h ih =>
    have h' : ¬(c = ',' ∧ rest.head? = some ' ') := noSepCond h
    have hcond : ¬(c = ',' ∧ (rest ++ ',' :: ' ' :: ys).head? = some ' ') := by
      cases rest with
      | nil => simp
      | cons r rt => simpa using h'
    rw [List.cons_append, splitSepL_cons_of c _ hcond, ih,
      consH_append c _ _ (splitSepL_ne_nil rest), splitSepL_cons_of c rest h']

/-- Unfolding of `joinSepL` on a list with at least two pieces. -/
theorem joinSepL_cons (x : List Char) (xs : List (List Char)) (h : xs ≠ []) :
    joinSepL (x :: xs) = x ++ ',' :: ' ' :: joinSepL xs := by
  rw [joinSepL]; simp [h]

/-- Unfolding of `joinSepL` on a single piece. -/
theorem joinSepL_single (x : List Char) : joinSepL [x] = x := by
  rw [joinSepL]; simp

/-- Splitting a ", "-join of a nonempty list of pieces yields the
concatenation of the splits of the pieces. -/
theorem splitSepL_joinSepL (l : List (List Char)) (h : l ≠ []) :
    splitSepL (joinSepL l) = l.flatMap splitSepL := by
  induction l with
  | nil => exact absurd rfl h
  | cons x xs ih =>
    cases hx : xs with
    | nil => rw [joinSepL_single]; simp
    | cons y yt =>
      rw [← hx, joinSepL_cons x xs (by simp [hx]), splitSepL_append_sep,
        ih (by simp [hx]), List.flatMap_cons]

/-- A piece with no ", " occurrence splits to itself. -/
theorem splitSepL_of_not_infix (l : List Char) (h : ¬ ([',', ' '] <:+: l)) :
    splitSepL l = [l] := by
  induction l using splitSepL.induct with
  | case1 => rw [splitSepL_nil]
  | case2 rest ih => exact absurd ⟨[], rest, rfl⟩ h
  | case3 c rest hc ih =>
    have hrest : ¬ ([',', ' '] <:+: rest) := fun hr => h (List.infix_cons hr)
    rw [splitSepL_cons_of c rest (noSepCond hc), ih hrest]
    rfl

/-- String-level version of `splitSepL_joinSepL`:
`", ".join(M).split(", ")` is the concatenation of the splits of the
members of `M`. -/
theorem splitCommaSpace_join (M : List String) (h : M ≠ []) :
    splitCommaSpace (joinCommaSpace M) = M.flatMap splitCommaSpace := by
  rw [splitCommaSpace, joinCommaSpace]
  have hmk : (String.mk (joinSepL (M.map String.toList))).toList
      = joinSepL (M.map String.toList) := rfl
  rw [hmk, splitSepL_joinSepL _ (by simpa using h), List.flatMap_map,
    List.map_flatMap]
  rfl

/-- String-level version of `splitSepL_of_not_infix`. -/
theorem splitCommaSpace_of_not_infix (s : String)
    (h : ¬ ([',', ' '] <:+: s.toList)) : splitCommaSpace s = [s] := by
  rw [splitCommaSpace, splitSepL_of_not_infix _ h]
  rfl

/-- The last element of a nonempty constant list. -/
theorem getLast?_of_all_eq {α : Type} {l : List α} {a : α} (h : l ≠ [])
    (hall : ∀ x ∈ l, x = a) : l.getLast? = some a := by
  induction l with
  | nil => exact absurd rfl h
  | cons x xs ih =>
    cases hxs : xs with
    | nil =>
      subst hxs
      rw [List.getLast?_singleton, hall x (by simp)]
    | cons y yt =>
      rw [← hxs, hxs, List.getLast?_cons_cons, ← hxs]
      exact ih (by simp [hxs]) fun z hz => hall z (by simp [hz])

/-- Unfolding of `bdBefore` at a successor position. -/
theorem bdBefore_succ (t : List Char) (j : Nat) :
    bdBefore t (j + 1)
      = (match t[j]? with | some c => !wordChar c | none => true) := rfl

/-- Unfolding of `bdAfter`. -/
theorem bdAfter_eq (t : List Char) (j : Nat) :
    bdAfter t j
      = (match t[j]? with | some c => !wordChar c | none => true) := rfl

/-- The executable matcher agrees with the declarative boundary-delimited
occurrence criterion. -/
theorem ftMatch_iff (k t : List Char) : ftMatch k t = true ↔ DelimOccurs k t := by
  constructor
  · intro h
    rw [ftMatch, List.any_eq_true] at h
    obtain ⟨i, hmem, hP⟩ := h
    simp only [Bool.and_eq_true, decide_eq_true_eq, beq_iff_eq] at hP
    obtain ⟨⟨⟨hlen, htake⟩, hbb⟩, hba⟩ := hP
    refine ⟨t.take i, t.drop (i + k.length), ?_, ?_, ?_⟩
    · conv_lhs => rw [← List.take_append_drop i t]
      rw [List.append_assoc]
      congr 1
      conv_lhs => rw [← List.take_append_drop k.length (t.drop i)]
      rw [htake, List.drop_drop]
    · intro c hc
      cases i with
      | zero => simp at hc
      | succ j =>
        have hj1 : j + 1 ≤ t.length := by omega
        rw [List.getLast?_eq_getElem?, List.length_take, Nat.min_eq_left hj1,
          Nat.add_sub_cancel, List.getElem?_take_of_lt (Nat.lt_succ_self j)] at hc
        rw [bdBefore_succ, hc] at hbb
        simpa using hbb
    · intro c hc
      rw [List.head?_eq_getElem?, List.getElem?_drop, Nat.add_zero] at hc
      rw [bdAfter_eq, hc] at hba
      simpa using hba
  · rintro ⟨pre, post, rfl, hpre, hpost⟩
    rw [ftMatch, List.any_eq_true]
    have hlen : (pre ++ k ++ post).length
        = pre.length + k.length + post.length := by
      simp
      omega
    refine ⟨pre.length, ?_, ?_⟩
    · rw [List.mem_range, hlen]; omega
    · simp only [Bool.and_eq_true, decide_eq_true_eq, beq_iff_eq]
      have hdrop : (pre ++ k ++ post).drop pre.length = k ++ post := by
        rw [List.append_assoc]
        exact List.drop_left pre (k ++ post)
      refine ⟨⟨⟨by rw [hlen]; omega, ?_⟩, ?_⟩, ?_⟩
      · rw [hdrop]
        exact List.take_left k post
      · cases pre with
        | nil => rfl
        | cons c0 pre' =>
          have hL : (c0 :: pre').length = pre'.length + 1 := rfl
          rw [hL, bdBefore_succ]
          have hidx : (c0 :: pre' ++ k ++ post)[pre'.length]?
              = (c0 :: pre')[pre'.length]? := by
            rw [List.append_assoc]
            exact List.getElem?_append_left (by simp)
          have hgl : (c0 :: pre')[pre'.length]? = (c0 :: pre').getLast? := by
            rw [List.getLast?_eq_getElem?, hL, Nat.add_sub_cancel]
          rw [hidx, hgl]
          cases hg : (c0 :: pre').getLast? with
          | none => simp at hg
          | some c1 => simp [hpre c1 hg]
      · rw [bdAfter_eq]
        have hidx : (pre ++ k ++ post)[pre.length + k.length]? = post[0]? := by
          rw [List.getElem?_append_right (by simp)]
          simp
        rw [hidx]
        cases post with
        | nil => rfl
        | cons c0 post' => simp [hpost c0 rfl]

/-- Soundness of the extraction model: an extracted keyword is a registered
nonempty keyword whose lowered form has a boundary-delimited occurrence in
the lowered text. -/
theorem mem_flashtextExtract {K : List String} {t : String} {k : String}
    (h : k ∈ flashtextExtract K t) :
    k ∈ K ∧ k ≠ "" ∧ DelimOccurs (lowerS k.toList) (lowerS t.toList) := by
  rw [flashtextExtract, List.mem_filterMap] at h
  obtain ⟨w, hw, hfw⟩ := h
  by_cases hm : ftMatch w (lowerS t.toList) = true
  · rw [if_pos hm] at hfw
    have hk : k ∈ K.filter fun k' => decide (k' ≠ "" ∧ lowerS k'.toList = w) :=
      List.mem_of_getLast?_eq_some hfw
    rw [List.mem_filter, decide_eq_true_eq] at hk
    obtain ⟨hkK, hne, hlow⟩ := hk
    exact ⟨hkK, hne, (ftMatch_iff _ _).mp (hlow ▸ hm)⟩
  · rw [if_neg hm] at hfw
    exact absurd hfw (by simp)

/-- `list(set(l))` realised by `List.dedup` is an admissible set order. -/
theorem admissible_dedup : Admissible fun l => l.dedup :=
  fun l => ⟨List.nodup_dedup l, fun _ => List.mem_dedup⟩

/-- C1 (counterexample): the claim says the registered keyword "cat" is
matched inside the text "category" because it is a literal substring of it;
the processor built at line 98 is flashtext's with its whole-word default,
and extraction (line 112) reports nothing on "category". -/
theorem c1_counterexample :
    ("cat".toList <:+: "category".toList)
      ∧ flashtextExtract ["cat"] "category" = [] := by
  constructor <;> decide

/-- C1 (amended): no false positives, in the word-boundary sense: every
keyword `extract(T)` returns is a registered, nonempty keyword whose
lower-cased form occurs in the lower-cased text at a position delimited on
both sides by the text edge or a non-word character; in particular a
substring occurrence inside a word ("cat" in "category") is never reported.
The original claim's "no false negatives" half is dropped: it fails on the
program even in boundary terms, because flashtext's greedy longest-match
non-overlapping scan suppresses a keyword whose occurrences overlap a
longer reported match (keywords "Apple" and "Big Apple" on "I love Big
Apple" yield only "Big Apple"); the extraction model here reports every
delimited occurrence, so soundness proved of it is conservative — it covers
everything the library can report. -/
theorem c1_extract_no_false_positives (K : List String) (T : String)
    (k : String) (h : k ∈ flashtextExtract K T) :
    k ∈ K ∧ k ≠ "" ∧ DelimOccurs (lowerS k.toList) (lowerS T.toList) :=
  mem_flashtextExtract h

/-- Witness for `c1_extract_no_false_positives` at a concrete keyword list
and text. -/
theorem c1_extract_no_false_positives_witness :
    "cat" ∈ ["cat", "dog"] ∧ "cat" ≠ ""
      ∧ DelimOccurs (lowerS "cat".toList) (lowerS "my cat naps".toList) :=
  c1_extract_no_false_positives ["cat", "dog"] "my cat naps" "cat"
    (by decide)

/-- C2 (counterexample): the registered keyword "Cat" is reported as matched
in "the cat sat" although it never occurs there with identical character
case: flashtext's default is `case_sensitive=False`, not case-sensitive. -/
theorem c2_counterexample :
    flashtextExtract ["Cat"] "the cat sat" = ["Cat"]
      ∧ ¬ ("Cat".toList <:+: "the cat sat".toList) := by
  constructor <;> decide

/-- C2 (amended): matching is case-insensitive by default: extraction
depends on the text only through its lower-cased form, so any two texts
equal up to character case match exactly the same keywords. -/
theorem c2_case_insensitive (K : List String) (T1 T2 : String)
    (h : lowerS T1.toList = lowerS T2.toList) :
    flashtextExtract K T1 = flashtextExtract K T2 := by
  rw [flashtextExtract, flashtextExtract, h]

/-- Witness for `c2_case_insensitive` at a concrete pair of texts. -/
theorem c2_case_insensitive_witness :
    flashtextExtract ["Cat"] "A CAT" = flashtextExtract ["Cat"] "a cat" :=
  c2_case_insensitive ["Cat"] "A CAT" "a cat" (by decide)

/-- C5: a record whose text contains no registered keyword (no keyword has a
boundary-delimited case-insensitive occurrence) gets `Mapped_Keyword = "-"`
(line 113) and `Mapped_Product = "-"` (line 118's else branch); the product
resolution of line 118 is skipped, as the result does not depend on the
product map `pm`. -/
theorem c5_empty_match_dashes (so : List String → List String)
    (K : List String) (pm : String → Option String) (desc : String)
    (hso : Admissible so)
    (habs : ∀ k ∈ K, ftMatch (lowerS k.toList) (lowerS desc.toList) = false) :
    extract_keywords so K desc = "-"
      ∧ Mapped_Product so pm (extract_keywords so K desc) = "-" := by
  have hext : flashtextExtract K desc = [] := by
    rw [flashtextExtract, List.filterMap_eq_nil_iff]
    intro w hw
    rw [trieKeys, List.mem_dedup] at hw
    obtain ⟨k, hkf, hkw⟩ := List.mem_map.mp hw
    rw [List.mem_filter] at hkf
    subst hkw
    rw [if_neg]
    rw [habs k hkf.1]
    simp
  have hnil : so (flashtextExtract K desc) = [] := by
    rw [hext]
    exact List.eq_nil_iff_forall_not_mem.mpr fun x hx => by
      have := ((hso []).2 x).mp hx
      simp at this
  have h1 : extract_keywords so K desc = "-" := by
    rw [extract_keywords, if_pos hnil]
  refine ⟨h1, ?_⟩
  rw [h1, Mapped_Product, if_pos rfl]

/-- Witness for `c5_empty_match_dashes` at a concrete record. -/
theorem c5_empty_match_dashes_witness :
    extract_keywords (fun l => l.dedup) ["cat"] "no pets here" = "-"
      ∧ Mapped_Product (fun l => l.dedup) (fun _ => none)
          (extract_keywords (fun l => l.dedup) ["cat"] "no pets here") = "-" :=
  c5_empty_match_dashes (fun l => l.dedup) ["cat"] (fun _ => none)
    "no pets here" admissible_dedup (by decide)

/-- C4: last-write-wins for `product_map` (lines 101-106): when row `r`
registers keyword `k` and no later row registers it again, the keyword's
associated product string is row `r`'s rendered product list, regardless of
any earlier registrations of `k` with different product lists. -/
theorem c4_last_write_wins (keyCols prodCols : List String)
    (rows1 rows2 : List KRow) (r : KRow) (k : String)
    (hk : k ∈ rowKeywords r keyCols)
    (hafter : ∀ r' ∈ rows2, k ∉ rowKeywords r' keyCols) :
    product_map_lookup (registrations keyCols prodCols (rows1 ++ r :: rows2)) k
      = some (renderProducts (rowProducts r prodCols)) := by
  rw [product_map_lookup, registrations, List.flatMap_append, List.flatMap_cons,
    List.filter_append, List.filter_append]
  have h2 : List.filter (fun p => decide (p.1 = k))
      (rows2.flatMap fun r' => (rowKeywords r' keyCols).map
        fun k' => (k', renderProducts (rowProducts r' prodCols))) = [] := by
    rw [List.filter_eq_nil_iff]
    intro p hp
    rw [List.mem_flatMap] at hp
    obtain ⟨r', hr', hpm⟩ := hp
    obtain ⟨k', hk', rfl⟩ := List.mem_map.mp hpm
    simp only [decide_eq_true_eq]
    intro hEq
    exact hafter r' hr' (hEq ▸ hk')
  have hmem : (k, renderProducts (rowProducts r prodCols)) ∈
      List.filter (fun p => decide (p.1 = k))
        ((rowKeywords r keyCols).map
          fun k' => (k', renderProducts (rowProducts r prodCols))) :=
    List.mem_filter.mpr ⟨List.mem_map_of_mem _ hk, by simp⟩
  have h1ne : List.filter (fun p => decide (p.1 = k))
      ((rowKeywords r keyCols).map
        fun k' => (k', renderProducts (rowProducts r prodCols))) ≠ [] := by
    intro hnil
    rw [hnil] at hmem
    exact absurd hmem (by simp)
  have h1all : ∀ p ∈ List.filter (fun p => decide (p.1 = k))
      ((rowKeywords r keyCols).map
        fun k' => (k', renderProducts (rowProducts r prodCols))),
      p = (k, renderProducts (rowProducts r prodCols)) := by
    intro p hp
    rw [List.mem_filter, decide_eq_true_eq] at hp
    obtain ⟨hpm, hpk⟩ := hp
    obtain ⟨k', hk', rfl⟩ := List.mem_map.mp hpm
    rw [show (k', renderProducts (rowProducts r prodCols)).1 = k' from rfl]
      at hpk
    rw [hpk]
  rw [h2, List.append_nil,
    List.getLast?_append_of_ne_nil _ h1ne, getLast?_of_all_eq h1ne h1all]
  rfl

/-- Witness for `c4_last_write_wins`: "milk" registered first with product
"Dairy", then re-registered with product "Farm"; only "Farm" remains. -/
theorem c4_last_write_wins_witness :
    product_map_lookup
      (registrations ["K"] ["P"]
        ([fun c => if c = "K" then some "milk"
            else if c = "P" then some "Dairy" else none]
          ++ (fun c => if c = "K" then some "milk"
              else if c = "P" then some "Farm" else none) :: []))
      "milk"
      = some (renderProducts (rowProducts
          (fun c => if c = "K" then some "milk"
            else if c = "P" then some "Farm" else none) ["P"])) :=
  c4_last_write_wins ["K"] ["P"]
    [fun c => if c = "K" then some "milk"
      else if c = "P" then some "Dairy" else none] []
    (fun c => if c = "K" then some "milk"
      else if c = "P" then some "Farm" else none)
    "milk" (by decide) (by simp)

/-- The assignment sequence of a manual entry binds each token to "-". -/
theorem registrations_manualRow (L : List String) :
    registrations ["Keywords"] [] (L.map manualRow)
      = L.map fun t => (t, "-") := by
  induction L with
  | nil => rfl
  | cons x xs ih =>
    rw [List.map_cons, registrations, List.flatMap_cons]
    rw [registrations] at ih
    rw [ih]
    rfl

/-- C6: a manual comma-separated entry yields an index with exactly one
entry per distinct non-empty trimmed token (dict keys collapse duplicates,
the `if kw.strip()` filter of line 88 drops empty tokens), each resolving to
"-" (no product columns); "a, b, b, c" yields the keyword set
{"a", "b", "c"}. -/
theorem c6_manual_entry (s : String) :
    ((manualRegs s).map Prod.fst).toFinset = (manual_tokens s).toFinset
      ∧ "" ∉ manual_tokens s
      ∧ (∀ t ∈ manual_tokens s, product_map_lookup (manualRegs s) t = some "-")
      ∧ (manual_tokens "a, b, b, c").toFinset = {"a", "b", "c"} := by
  have hre : manualRegs s = (manual_tokens s).map fun t => (t, "-") := by
    rw [manualRegs, registrations_manualRow]
  refine ⟨?_, ?_, ?_, by decide⟩
  · rw [hre, List.map_map]
    rw [show (Prod.fst ∘ fun t : String => (t, ("-" : String))) = id from rfl,
      List.map_id]
  · intro hmem
    rw [manual_tokens, List.mem_filter] at hmem
    simp at hmem
  · intro t ht
    rw [hre, product_map_lookup]
    have hmem : (t, "-") ∈ ((manual_tokens s).map fun t' => (t', "-")).filter
        (fun p => decide (p.1 = t)) :=
      List.mem_filter.mpr ⟨List.mem_map_of_mem _ ht, by simp⟩
    have hne : ((manual_tokens s).map fun t' => (t', "-")).filter
        (fun p => decide (p.1 = t)) ≠ [] := by
      intro hnil
      rw [hnil] at hmem
      exact absurd hmem (by simp)
    have hall : ∀ p ∈ ((manual_tokens s).map fun t' => (t', "-")).filter
        (fun p => decide (p.1 = t)), p = (t, "-") := by
      intro p hp
      rw [List.mem_filter, decide_eq_true_eq] at hp
      obtain ⟨hpm, hpk⟩ := hp
      obtain ⟨t', ht', rfl⟩ := List.mem_map.mp hpm
      rw [show (t', ("-" : String)).1 = t' from rfl] at hpk
      rw [hpk]
    rw [getLast?_of_all_eq hne hall]
    rfl

/-- Witness for `c6_manual_entry` at the spec's example entry. -/
theorem c6_manual_entry_witness :
    product_map_lookup (manualRegs "a, b, b, c") "b" = some "-" :=
  (c6_manual_entry "a, b, b, c").2.2.1 "b" (by decide)

/-- Keywords without a ", " occurrence pass through the split unchanged. -/
theorem flatMap_splitCommaSpace_eq_self (M : List String)
    (hsep : ∀ k ∈ M, ¬ ([',', ' '] <:+: k.toList)) :
    M.flatMap splitCommaSpace = M := by
  induction M with
  | nil => rfl
  | cons x xs ih =>
    rw [List.flatMap_cons, splitCommaSpace_of_not_infix x (hsep x (by simp)),
      ih fun k hk => hsep k (by simp [hk])]
    rfl

/-- When no matched keyword contains the ", " delimiter (and none is
empty), the split-based product resolution of line 118 agrees with
per-keyword lookup. -/
theorem resolved_eq_perKeyword (pm : String → Option String) (M : List String)
    (h : M ≠ []) (hne : ∀ k ∈ M, k ≠ "")
    (hsep : ∀ k ∈ M, ¬ ([',', ' '] <:+: k.toList)) :
    resolvedProductSet pm (joinCommaSpace M) = perKeywordProducts pm M := by
  rw [resolvedProductSet, splitCommaSpace_join M h,
    flatMap_splitCommaSpace_eq_self M hsep]
  have hfil : M.filter (fun k => decide (k ≠ "")) = M :=
    List.filter_eq_self.mpr fun k hk => by simp [hne k hk]
  rw [hfil, perKeywordProducts]

/-- C3 (counterexample): a record whose matched keyword set is {"a, b"},
with "a, b" bound to product "Dairy", resolves products to {"-"} (line 118
splits the joined string into the unregistered fragments "a" and "b"), not
to the per-keyword composite set {"Dairy"} the claim prescribes. -/
theorem c3_counterexample :
    resolvedProductSet (fun k => product_map_lookup [("a, b", "Dairy")] k)
        (joinCommaSpace ["a, b"])
      ≠ perKeywordProducts (fun k => product_map_lookup [("a, b", "Dairy")] k)
        ["a, b"] := by
  decide

/-- C3 (amended): for records whose non-empty matched keyword set contains
no keyword with an embedded ", " (and no empty keyword), `matched_products`
is the set of per-keyword composite product strings — one `", ".join`ed
string per keyword, "-" for an absent or empty product list — deduplicated
as whole strings. -/
theorem c3_per_keyword_products (pm : String → Option String)
    (M : List String) (h : M ≠ []) (hne : ∀ k ∈ M, k ≠ "")
    (hsep : ∀ k ∈ M, ¬ ([',', ' '] <:+: k.toList)) :
    resolvedProductSet pm (joinCommaSpace M) = perKeywordProducts pm M :=
  resolved_eq_perKeyword pm M h hne hsep

/-- Witness for `c3_per_keyword_products` at a concrete matched set. -/
theorem c3_per_keyword_products_witness :
    resolvedProductSet (fun k => product_map_lookup [("milk", "Dairy")] k)
        (joinCommaSpace ["milk", "tofu"])
      = perKeywordProducts (fun k => product_map_lookup [("milk", "Dairy")] k)
        ["milk", "tofu"] :=
  c3_per_keyword_products (fun k => product_map_lookup [("milk", "Dairy")] k)
    ["milk", "tofu"] (by decide) (by decide) (by decide)

/-- C10: product resolution works on the ", "-fragments of the joined
matched-keyword string: the resolved set equals the lookups of all
fragments of all matched keywords (unregistered fragments giving "-"), and
consequently agrees with per-keyword lookup exactly when no matched keyword
embeds the ", " delimiter. -/
theorem c10_split_based_resolution (pm : String → Option String)
    (M : List String) (h : M ≠ []) :
    resolvedProductSet pm (joinCommaSpace M)
        = (((M.flatMap splitCommaSpace).filter fun k => decide (k ≠ "")).map
            fun k => (pm k).getD "-").toFinset
      ∧ ((∀ k ∈ M, k ≠ "" ∧ ¬ ([',', ' '] <:+: k.toList)) →
          resolvedProductSet pm (joinCommaSpace M)
            = perKeywordProducts pm M) := by
  constructor
  · rw [resolvedProductSet, splitCommaSpace_join M h]
  · intro hk
    exact resolved_eq_perKeyword pm M h (fun k hkm => (hk k hkm).1)
      fun k hkm => (hk k hkm).2

/-- Witness for `c10_split_based_resolution` at the fragmenting keyword
"a, b". -/
theorem c10_split_based_resolution_witness :
    resolvedProductSet (fun k => product_map_lookup [("a, b", "X")] k)
        (joinCommaSpace ["a, b"])
      = (((["a, b"].flatMap splitCommaSpace).filter
          fun k => decide (k ≠ "")).map
            fun k => ((product_map_lookup [("a, b", "X")] k)).getD
              "-").toFinset :=
  (c10_split_based_resolution (fun k => product_map_lookup [("a, b", "X")] k)
    ["a, b"] (by decide)).1

/-- Any two admissible set orders of the same list are permutations of one
another. -/
theorem admissible_perm {so1 so2 : List String → List String}
    (h1 : Admissible so1) (h2 : Admissible so2) (l : List String) :
    List.Perm (so1 l) (so2 l) := by
  rw [List.perm_ext_iff_of_nodup (h1 l).1 (h2 l).1]
  intro a
  rw [(h1 l).2 a, (h2 l).2 a]

/-- `", ".join` of a single piece. -/
theorem joinCommaSpace_single (x : String) : joinCommaSpace [x] = x := by
  show (⟨joinSepL [x.toList]⟩ : String) = x
  rw [show joinSepL [x.toList] = x.toList ++ [] from rfl, List.append_nil]
  rfl

/-- A ", "-join of a nonempty list equals "-" exactly for the singleton
list ["-"]. -/
theorem joinCommaSpace_eq_dash {l : List String} (h : l ≠ []) :
    joinCommaSpace l = "-" ↔ l = ["-"] := by
  constructor
  · intro hj
    cases l with
    | nil => exact absurd rfl h
    | cons x xs =>
      cases hxs : xs with
      | nil =>
        subst hxs
        rw [joinCommaSpace_single] at hj
        rw [hj]
      | cons y yt =>
        exfalso
        subst hxs
        have hlen : (joinCommaSpace (x :: y :: yt)).toList.length
            = ("-" : String).toList.length := by rw [hj]
        rw [show (joinCommaSpace (x :: y :: yt)).toList
            = joinSepL ((x :: y :: yt).map String.toList) from rfl] at hlen
        rw [List.map_cons, joinSepL_cons _ _ (by simp)] at hlen
        rw [show ("-" : String).toList.length = 1 from rfl,
          List.length_append] at hlen
        simp at hlen
        omega
  · rintro rfl
    rfl

/-- The resolved product set depends on the matched keyword list only up to
permutation. -/
theorem resolvedProductSet_perm (pm : String → Option String)
    {l1 l2 : List String} (hp : List.Perm l1 l2) (h1 : l1 ≠ []) :
    resolvedProductSet pm (joinCommaSpace l1)
      = resolvedProductSet pm (joinCommaSpace l2) := by
  have h2 : l2 ≠ [] := by
    intro hnil
    subst hnil
    exact h1 hp.eq_nil
  rw [resolvedProductSet, resolvedProductSet, splitCommaSpace_join _ h1,
    splitCommaSpace_join _ h2]
  exact List.toFinset_eq_of_perm _ _
    (((hp.flatMap_right splitCommaSpace).filter _).map _)

/-- C8: re-running the mapping pass over the same record with the same index
(the two runs differing only in Python's set iteration order) yields the
same set of matched keywords and the same set of matched product strings. -/
theorem c8_rerun_same_sets (so1 so2 : List String → List String)
    (h1 : Admissible so1) (h2 : Admissible so2) (K : List String)
    (pm : String → Option String) (desc : String) :
    (so1 (flashtextExtract K desc)).toFinset
        = (so2 (flashtextExtract K desc)).toFinset
      ∧ productSet so1 pm K desc = productSet so2 pm K desc := by
  have hperm : List.Perm (so1 (flashtextExtract K desc))
      (so2 (flashtextExtract K desc)) := admissible_perm h1 h2 _
  refine ⟨List.toFinset_eq_of_perm _ _ hperm, ?_⟩
  by_cases hnil : so1 (flashtextExtract K desc) = []
  · have hnil2 : so2 (flashtextExtract K desc) = [] := by
      have hp2 : List.Perm ([] : List String)
          (so2 (flashtextExtract K desc)) := hnil ▸ hperm
      exact hp2.nil_eq.symm
    have e1 : extract_keywords so1 K desc = "-" := by
      rw [extract_keywords, if_pos hnil]
    have e2 : extract_keywords so2 K desc = "-" := by
      rw [extract_keywords, if_pos hnil2]
    rw [productSet, productSet, e1, e2]
  · have hnil2 : so2 (flashtextExtract K desc) ≠ [] := by
      intro hn
      have hp2 : List.Perm (so1 (flashtextExtract K desc))
          ([] : List String) := hn ▸ hperm
      exact hnil hp2.eq_nil
    have e1 : extract_keywords so1 K desc
        = joinCommaSpace (so1 (flashtextExtract K desc)) := by
      rw [extract_keywords, if_neg hnil]
    have e2 : extract_keywords so2 K desc
        = joinCommaSpace (so2 (flashtextExtract K desc)) := by
      rw [extract_keywords, if_neg hnil2]
    rw [productSet, productSet, e1, e2]
    by_cases hdash : joinCommaSpace (so1 (flashtextExtract K desc)) = "-"
    · have hs1 : so1 (flashtextExtract K desc) = ["-"] :=
        (joinCommaSpace_eq_dash hnil).mp hdash
      have hs2 : so2 (flashtextExtract K desc) = ["-"] := by
        have hp2 : List.Perm (["-"] : List String)
            (so2 (flashtextExtract K desc)) := hs1 ▸ hperm
        exact hp2.symm.eq_singleton
      rw [hs1, hs2]
    · have hdash2 : joinCommaSpace (so2 (flashtextExtract K desc)) ≠ "-" := by
        intro hd
        have hs2 : so2 (flashtextExtract K desc) = ["-"] :=
          (joinCommaSpace_eq_dash hnil2).mp hd
        have hs1 : so1 (flashtextExtract K desc) = ["-"] := by
          have hp2 : List.Perm (so1 (flashtextExtract K desc))
              (["-"] : List String) := hs2 ▸ hperm
          exact hp2.eq_singleton
        exact hdash ((joinCommaSpace_eq_dash hnil).mpr hs1)
      rw [if_neg hdash, if_neg hdash2]
      exact resolvedProductSet_perm pm hperm hnil

/-- Witness for `c8_rerun_same_sets`: two admissible orders (dedup and
dedup-of-reverse) at a concrete record. -/
theorem c8_rerun_same_sets_witness :
    ((fun l : List String => l.dedup)
        (flashtextExtract ["milk", "bread"] "milk and bread")).toFinset
      = ((fun l : List String => l.reverse.dedup)
          (flashtextExtract ["milk", "bread"] "milk and bread")).toFinset :=
  (c8_rerun_same_sets (fun l => l.dedup) (fun l => l.reverse.dedup)
    admissible_dedup
    (fun l => ⟨List.nodup_dedup l.reverse,
      fun x => by rw [List.mem_dedup, List.mem_reverse]⟩)
    ["milk", "bread"]
    (fun k => product_map_lookup [("milk", "Dairy"), ("bread", "Bakery")] k)
    "milk and bread").1

/-- A non-null cell is not `isNull`. -/
theorem Cell.isNull_eq_false {v : Cell} (h : v ≠ Cell.null) :
    v.isNull = false := by
  cases v with
  | null => exact absurd rfl h
  | str s => rfl
  | num n => rfl

/-- Filtering keeps a non-null head cell. -/
theorem filter_notNull_cons_pos {v : Cell} (h : v ≠ Cell.null)
    (l : List Cell) :
    List.filter (fun x => !x.isNull) (v :: l)
      = v :: List.filter (fun x => !x.isNull) l := by
  simp [List.filter_cons, Cell.isNull_eq_false h]

/-- `" ".join` of a list with further pieces. -/
theorem joinSpace_cons (x : String) (xs : List String) (h : xs ≠ []) :
    joinSpace (x :: xs) = x ++ " " ++ joinSpace xs := by
  rw [joinSpace.eq_def]
  simp [h, String.append_assoc]

/-- C9: column concatenation (lines 39-40) takes the selected columns,
drops null cells, stringifies the rest, and joins them with a single space;
an all-null selection yields the empty string.  Stated as the exhaustive
unfolding over the head column. -/
theorem c9_concatenate_columns (r : String → Cell) (c : String)
    (cols : List String) :
    concatenate_columns r [] = ""
      ∧ (r c = Cell.null →
          concatenate_columns r (c :: cols) = concatenate_columns r cols)
      ∧ (r c ≠ Cell.null → (∀ c' ∈ cols, r c' = Cell.null) →
          concatenate_columns r (c :: cols) = (r c).astype)
      ∧ (r c ≠ Cell.null → (∃ c' ∈ cols, r c' ≠ Cell.null) →
          concatenate_columns r (c :: cols)
            = (r c).astype ++ " " ++ concatenate_columns r cols)
      ∧ ((∀ c' ∈ c :: cols, r c' = Cell.null) →
          concatenate_columns r (c :: cols) = "") := by
  refine ⟨rfl, ?_, ?_, ?_, ?_⟩
  · intro hc
    simp [concatenate_columns, hc, Cell.isNull]
  · intro hc hall
    have hrest : List.filter (fun v => !v.isNull) (cols.map r) = [] := by
      rw [List.filter_eq_nil_iff]
      intro v hv
      obtain ⟨c', hc', rfl⟩ := List.mem_map.mp hv
      rw [hall c' hc']
      simp [Cell.isNull]
    rw [concatenate_columns, List.map_cons, filter_notNull_cons_pos hc,
      hrest]
    rw [show List.map Cell.astype [r c] = [(r c).astype] from rfl]
    rw [joinSpace.eq_def]
    simp
  · intro hc hex
    have hrest : List.filter (fun v => !v.isNull) (cols.map r) ≠ [] := by
      obtain ⟨c', hc', hv⟩ := hex
      intro hnil
      have hm : r c' ∈ List.filter (fun v => !v.isNull) (cols.map r) :=
        List.mem_filter.mpr ⟨List.mem_map_of_mem r hc',
          by rw [Cell.isNull_eq_false hv]; rfl⟩
      rw [hnil] at hm
      exact absurd hm (by simp)
    rw [concatenate_columns, concatenate_columns, List.map_cons,
      filter_notNull_cons_pos hc, List.map_cons]
    exact joinSpace_cons _ _ (by simp [hrest])
  · intro hall
    rw [concatenate_columns]
    have hnil : List.filter (fun v => !v.isNull) ((c :: cols).map r) = [] := by
      rw [List.filter_eq_nil_iff]
      intro v hv
      obtain ⟨c', hc', rfl⟩ := List.mem_map.mp hv
      rw [hall c' hc']
      simp [Cell.isNull]
    rw [hnil]
    rfl

/-- Witness for `c9_concatenate_columns`: a string cell and a numeric cell
survive, the null cell is dropped, values joined with one space. -/
theorem c9_concatenate_columns_witness :
    concatenate_columns
        (fun c => if c = "a" then Cell.str "x"
          else if c = "b" then Cell.null else Cell.num 7)
        ("a" :: ["b", "cc"])
      = ((fun c : String => if c = "a" then Cell.str "x"
          else if c = "b" then Cell.null else Cell.num 7) "a").astype
        ++ " " ++ concatenate_columns
          (fun c => if c = "a" then Cell.str "x"
            else if c = "b" then Cell.null else Cell.num 7) ["b", "cc"] :=
  (c9_concatenate_columns
    (fun c => if c = "a" then Cell.str "x"
      else if c = "b" then Cell.null else Cell.num 7)
    "a" ["b", "cc"]).2.2.2.1 (by decide) (by decide)

/-- C7: on a parse failure `load_data` reports the `st.error` message and
returns `None` (lines 28-37), but line 62 then runs
`st.dataframe(desc_dataset.head(1000), ...)` on that `None` BEFORE the
`is not None` guard of line 64, raising `AttributeError` and crashing the
script run, contrary to the claim's no-crash guarantee (the keyword-file
path at line 81 places the same guard correctly, so line 62 is a slip). -/
theorem c7_crash_on_parse_failure :
    load_data "data.csv" (Except.error "bad header")
        = (none, ["Error reading file: bad header"])
      ∧ desc_preview (load_data "data.csv" (Except.error "bad header")).1
        = Except.error "AttributeError: NoneType object has no attribute head"
    := ⟨rfl, rfl⟩
